import Mathlib

/-!
Verification of the event-stream interpretation layer of the haggle dashboard:
the Stream Buffer (`useSSE`), the Reasoning Chain Deriver (`buildReasoningChain`
in the Research panel), and the Graph Model & Layout Engine (`computeLayout` in
`KnowledgeGraph.jsx`), together with the periodic graph-snapshot fetch.

The JavaScript is shallowly embedded: loosely-typed payload values become the
`Val` type below, JS member access (which throws a `TypeError` on `null` /
`undefined` receivers) becomes an `Except`-valued accessor, optional chaining
becomes a total accessor, and JS truthiness becomes `Val.truthy`.  Strict
equality `===` on the scalar values the code actually compares is structural
equality on `Val` (for objects and arrays JS compares references; the code
under verification only ever compares scalars against scalar literals, except
for the `previousRate !== monthlyRate` check, which we model structurally).
-/

set_option autoImplicit false
set_option maxRecDepth 100000

namespace Haggle

/-- A JavaScript value as it appears in parsed JSON payloads: `undefined`,
`null`, booleans, numbers (integer-valued in every payload this dashboard
handles), strings, arrays and plain objects. -/
inductive Val where
  | undefined : Val
  | null : Val
  | bool : Bool → Val
  | num : Int → Val
  | str : String → Val
  | arr : List Val → Val
  | obj : List (String × Val) → Val

mutual

/-- Structural equality on `Val`, modelling JS strict equality `===` on the
scalar payload values compared by the dashboard code. -/
def Val.beq : Val → Val → Bool
  | .undefined, .undefined => true
  | .null, .null => true
  | .bool a, .bool b => a == b
  | .num a, .num b => a == b
  | .str a, .str b => a == b
  | .arr a, .arr b => Val.beqList a b
  | .obj a, .obj b => Val.beqFields a b
  | _, _ => false

def Val.beqList : List Val → List Val → Bool
  | [], [] => true
  | a :: as, b :: bs => Val.beq a b && Val.beqList as bs
  | _, _ => false

def Val.beqFields : List (String × Val) → List (String × Val) → Bool
  | [], [] => true
  | (k, a) :: as, (l, b) :: bs => k == l && Val.beq a b && Val.beqFields as bs
  | _, _ => false

end

/-- JS truthiness: `undefined`, `null`, `false`, `0` and `""` are falsy;
every other value (including any object or array) is truthy. -/
def Val.truthy : Val → Bool
  | .undefined => false
  | .null => false
  | .bool b => b
  | .num n => n != 0
  | .str s => s ≠ ""
  | .arr _ => true
  | .obj _ => true

/-- Nullish values are exactly `undefined` and `null`: the receivers on which
JS member access throws. -/
def Val.isNullish : Val → Bool
  | .undefined => true
  | .null => true
  | _ => false

/-- Optional-chained member access `v?.f`: `undefined` when the receiver is
nullish, the field (or `undefined` when absent) on an object, and `undefined`
on every other primitive (whose own properties the payloads never use). -/
def Val.getOpt : Val → String → Val
  | .undefined, _ => .undefined
  | .null, _ => .undefined
  | .obj fs, f => (fs.lookup f).getD .undefined
  | _, _ => .undefined

/-- Plain member access `v.f`: a `TypeError` on a nullish receiver, otherwise
the same result as optional chaining. -/
def Val.get (v : Val) (f : String) : Except String Val :=
  if v.isNullish then .error "TypeError" else .ok (v.getOpt f)

/-- JS `String(v)` as used by template-literal interpolation. -/
def Val.toDisplay : Val → String
  | .undefined => "undefined"
  | .null => "null"
  | .bool b => if b then "true" else "false"
  | .num n => toString n
  | .str s => s
  | .arr _ => ""
  | .obj _ => "[object Object]"

/-- `v === lit` for a string literal `lit`. -/
def Val.eqStr : Val → String → Bool
  | .str s, t => s == t
  | _, _ => false

/-- `v === true` (strict: only the boolean `true` qualifies). -/
def Val.eqBoolTrue : Val → Bool
  | .bool b => b
  | _ => false

/-- `v === n` for a numeric literal `n`. -/
def Val.eqNum : Val → Int → Bool
  | .num m, n => m == n
  | _, _ => false

/-- JS `a || b`: the left value when truthy, otherwise the right value. -/
def jsOr (a b : Val) : Val :=
  if a.truthy then a else b

/-- JS `.length` read: array and string lengths, the `length` field of an
object, `undefined` otherwise. -/
def jsLen : Val → Val
  | .arr xs => .num xs.length
  | .str s => .num s.length
  | .obj fs => (fs.lookup "length").getD .undefined
  | _ => .undefined

/-- JS `v.length > 0` (a non-numeric length compares as `NaN`, hence false). -/
def jsLenPos (v : Val) : Bool :=
  match jsLen v with
  | .num n => 0 < n
  | _ => false

/-- JS indexing `v[i]`: never throws on a non-nullish receiver. -/
def jsIdx (v : Val) (i : Nat) : Val :=
  match v with
  | .arr xs => xs.getD i .undefined
  | .str s => match s.toList.get? i with
    | some c => .str (String.singleton c)
    | none => .undefined
  | .obj fs => (fs.lookup (toString i)).getD .undefined
  | _ => .undefined

/-- JS method call `v.slice(a, b)`: defined on arrays and strings, a
`TypeError` ("not a function") on every other value. -/
def jsSlice (v : Val) (a b : Nat) : Except String Val :=
  match v with
  | .arr xs => .ok (.arr ((xs.drop a).take (b - a)))
  | .str s => .ok (.str (String.mk ((s.toList.drop a).take (b - a))))
  | _ => .error "TypeError"

/-- `.replace(/_/g, " ")` on a string: the pattern and replacement are single
characters, so the global replace is exactly a character map. -/
def replaceUnderscores (s : String) : String :=
  String.mk (s.data.map (fun c => if c = '_' then ' ' else c))

/-- JS method call `v.replace(/_/g, " ")`: defined on strings (replacing every
underscore), a `TypeError` on every other value. -/
def jsReplaceUnderscores : Val → Except String Val
  | .str s => .ok (.str (replaceUnderscores s))
  | _ => .error "TypeError"

/-- One event as parsed from the SSE channel (`JSON.parse(e.data)`): a `type`
tag and a kind-specific `data` payload (possibly absent). -/
structure Event where
  type : String
  data : Val

/-- One derived entry of the reasoning-chain timeline.  `category` is always a
string literal in the source; `label`, `detail`, `source` and `extras` can be
arbitrary payload values flowing through template literals or used verbatim,
so they stay `Val`; `highlight` is used (and here modelled) as a boolean, its
absence being falsy. -/
structure Step where
  category : String
  label : Val
  detail : Val
  source : Val
  highlight : Bool := false
  extras : Val := Val.undefined

/-! ## Stream Buffer (`useSSE`) -/

/-- `Array.prototype.slice(-150)`: the most recent 150 elements. -/
def takeRight (n : Nat) (l : List Event) : List Event :=
  l.drop (l.length - n)

/-- The reset-signal test from the `useSSE` handler:
`data.type === "task_updated" && data.data?.reset === true`. -/
def isReset (e : Event) : Bool :=
  e.type == "task_updated" && (e.data.getOpt "reset").eqBoolTrue

/-- One ingestion step of the `useSSE` handler: a reset signal replaces the
history with the empty sequence; any other event is appended and the history
truncated to its most recent 150 entries (`[...prev, data].slice(-150)`). -/
def ingest (hist : List Event) (e : Event) : List Event :=
  if isReset e then [] else takeRight 150 (hist ++ [e])

/-! ## Reasoning Chain Deriver (`buildReasoningChain`)

Each `if (ev.type === ...)` block of the source becomes one function below.
Field reads are hoisted to the top of each function: the accessor is pure, and
on the one receiver that could make a read throw (a nullish `d`, impossible
after `ev.data || {}`) the JS block would throw at its first read just the
same, so hoisting preserves both values and error behaviour. -/

/-- `ev.data || {}`. -/
def effPayload (v : Val) : Val :=
  jsOr v (Val.obj [])

/-- The `task_updated` block: the four rules (phase `research`, phase
`research_complete`, `confirmed_action`, phase `dispatch`) fire independently,
their Steps concatenated in this source order. -/
def taskSteps (d : Val) : Except String (List Step) := do
  let phase ← d.get "phase"
  let msg ← d.get "message"
  let ca ← d.get "confirmed_action"
  let s1 : List Step :=
    if phase.eqStr "research" then
      [{ category := "research", label := .str "Research Phase",
         detail := jsOr msg (.str "Gathering competitive intelligence and context..."),
         source := .str "Tavily + Senso" }]
    else []
  let s2 : List Step :=
    if phase.eqStr "research_complete" then
      [{ category := "strategy", label := .str "Strategy Formed",
         detail := .str "Analysis complete — negotiation approach determined",
         source := .str "Haggle Engine" }]
    else []
  let s3 ← if ca.truthy then do
      let act ← ca.get "action"
      let svc ← ca.get "service"
      let rsn ← ca.get "reason"
      let ms ← ca.get "monthly_savings"
      let verb := if act.eqStr "cancel_service" then "Cancel" else "Negotiate"
      pure [{ category := "summary",
              label := Val.str ("User Confirmed: " ++ verb ++ " " ++ svc.toDisplay),
              detail := jsOr rsn (.str ("Target savings: $" ++ ms.toDisplay ++ "/mo")),
              source := .str "User Decision", highlight := true }]
    else pure ([] : List Step)
  let s4 : List Step :=
    if phase.eqStr "dispatch" then
      [{ category := "call", label := .str "Dispatching Service Calls",
         detail := jsOr msg (.str "Initiating autonomous negotiation..."),
         source := .str "Vapi" }]
    else []
  pure (s1 ++ s2 ++ s3 ++ s4)

/-- The closed per-tool-name table of the `tool_call` block. -/
def toolLabels : List (String × (String × String × String)) :=
  [ ("tavily_search", ("Web Intelligence Search", "Searching competitor rates, retention offers, and market data", "Tavily")),
    ("search_task_context", ("Loading Task Context", "Retrieving subscription details and negotiation parameters", "Context Store")),
    ("extract_entities", ("Entity Extraction", "Parsing call for confirmation numbers, prices, account details", "GLiNER2")),
    ("update_neo4j", ("Knowledge Graph Update", "Persisting negotiation results and subscription changes", "Neo4j")),
    ("end_task", ("Task Completed", "Marking task as resolved with final outcome", "Haggle Engine")),
    ("get_subscription_analysis", ("Subscription Analysis", "Analyzing user's subscription portfolio for optimization", "Analytics")),
    ("confirm_action", ("Action Confirmed", "Recording user's confirmed decision", "User Input")),
    ("calculate_cost_per_use", ("Cost-Per-Use Analysis", "Calculating actual value vs. cost of subscription", "Analytics")) ]

/-- The `tool_call` block: `toolLabels[d.tool] || { label: d.tool, ... }`. -/
def toolSteps (d : Val) : Except String (List Step) := do
  let tool ← d.get "tool"
  let info : Val × Val × Val :=
    match tool with
    | .str s =>
      match toolLabels.lookup s with
      | some (l, dt, src) => (.str l, .str dt, .str src)
      | none => (tool, .str "Processing...", .str "Agent")
    | _ => (tool, .str "Processing...", .str "Agent")
  pure [{ category := "tool", label := info.1, detail := info.2.1, source := info.2.2 }]

/-- The `call_status` block: rules for `ringing`, `in_progress` and `ended`. -/
def callSteps (d : Val) : Except String (List Step) := do
  let status ← d.get "status"
  let comp ← d.get "company"
  let dur ← d.get "duration_seconds"
  let outc ← d.get "outcome"
  let s1 : List Step :=
    if status.eqStr "ringing" then
      [{ category := "call",
         label := Val.str ("Calling " ++ (jsOr comp (.str "Provider")).toDisplay),
         detail := .str "Connecting to service provider...", source := .str "Vapi" }]
    else []
  let s2 : List Step :=
    if status.eqStr "in_progress" then
      [{ category := "call", label := .str "Call Connected",
         detail := Val.str ("Live negotiation in progress" ++
           (if comp.truthy then " with " ++ comp.toDisplay else "")),
         source := .str "Vapi" }]
    else []
  let s3 : List Step :=
    if status.eqStr "ended" then
      [{ category := "summary", label := .str "Call Completed",
         detail := Val.str ("Duration: " ++ (jsOr dur (.str "?")).toDisplay ++ "s" ++
           (if outc.truthy then " — " ++ outc.toDisplay else "")),
         source := .str "Vapi", highlight := outc.eqStr "success" }]
    else []
  pure (s1 ++ s2 ++ s3)

/-- The `voice_analysis` block: a Step only when `d.key_insights || []` has
positive length. -/
def voiceSteps (d : Val) : Except String (List Step) := do
  let ki ← d.get "key_insights"
  let emo ← d.get "emotion"
  let insights := jsOr ki (.arr [])
  if jsLenPos insights then do
    let extras ← jsSlice insights 1 3
    pure [{ category := "voice",
            label := Val.str ("Voice Intelligence: " ++ (jsOr emo (.str "Analysis")).toDisplay),
            detail := jsIdx insights 0, extras := extras,
            source := .str "Modulate Velma 2" }]
  else pure []

/-- The `entity_extracted` block:
`label: (d.entity_type || "entity").replace(/_/g, " ")`. -/
def entitySteps (d : Val) : Except String (List Step) := do
  let et ← d.get "entity_type"
  let v ← d.get "value"
  let src ← d.get "extraction_source"
  let ex ← d.get "gliner2_extras"
  let lbl ← jsReplaceUnderscores (jsOr et (.str "entity"))
  pure [{ category := "entity", label := lbl, detail := v,
          source := jsOr src (.str "GLiNER2"), extras := ex }]

/-- The `graph_updated` block: savings-aware detail,
`highlight: !!savings`. -/
def graphSteps (d : Val) : Except String (List Step) := do
  let det ← d.get "details"
  let svc ← d.get "service"
  let savings := det.getOpt "monthly_savings"
  let detail ← if savings.truthy then do
      let ann ← det.get "annual_savings"
      pure (Val.str ("Saved $" ++ savings.toDisplay ++ "/mo ($" ++ ann.toDisplay ++ "/yr)"))
    else pure (Val.str "Graph nodes updated")
  pure [{ category := "graph",
          label := Val.str ("Knowledge Graph: " ++ (jsOr svc (.str "Updated")).toDisplay),
          detail := detail, source := .str "Neo4j", highlight := savings.truthy }]

/-- The `bill_analyzed` block. -/
def billSteps (d : Val) : Except String (List Step) := do
  let prov ← d.get "provider_name"
  let tot ← d.get "total_amount"
  let pc ← d.get "price_change"
  pure [{ category := "detection",
          label := Val.str ("Bill Scanned: " ++ (jsOr prov (.str "Provider")).toDisplay),
          detail := Val.str ("Total: $" ++ (jsOr tot (.str "?")).toDisplay ++
            (if pc.truthy then " — " ++ pc.toDisplay else "")),
          source := .str "Reka Vision" }]

/-- The `call_summary` block. -/
def summarySteps (d : Val) : Except String (List Step) := do
  let narr ← d.get "narrative"
  let kp ← d.get "key_points"
  pure [{ category := "summary", label := .str "Agent Summary", detail := narr,
          extras := kp, source := .str "Haggle Agent", highlight := true }]

/-- The `modulate_analysis` block: a Step only when
`(d.agent_performance || {}).professionalism` is truthy. -/
def modulateSteps (d : Val) : Except String (List Step) := do
  let ap ← d.get "agent_performance"
  let perf := jsOr ap (Val.obj [])
  let prof ← perf.get "professionalism"
  if prof.truthy then do
    let grade ← prof.get "grade"
    let note ← perf.get "summary_note"
    let pg := (perf.getOpt "privacy").getOpt "grade"
    pure [{ category := "voice",
            label := Val.str ("Performance: " ++ grade.toDisplay ++ " Professionalism, " ++
              (jsOr pg (.str "?")).toDisplay ++ " Privacy"),
            detail := jsOr note (.str "Agent performance evaluated"),
            source := .str "Modulate" }]
  else pure []

/-- The `pii_detected` block (`${d.count} item${d.count !== 1 ? "s" : ""}`). -/
def piiSteps (d : Val) : Except String (List Step) := do
  let cnt ← d.get "count"
  pure [{ category := "detection",
          label := Val.str ("PII Protected: " ++ cnt.toDisplay ++ " item" ++
            (if cnt.eqNum 1 then "" else "s") ++ " auto-redacted"),
          detail := .str "Sensitive data detected and removed from transcript",
          source := .str "Modulate Safety" }]

/-- The per-event body of the `buildReasoningChain` loop: `d = ev.data || {}`,
then every `if (ev.type === ...)` block in source order (at most one matches,
the `type` literals being pairwise distinct).  Written with explicit binds so
that each block's contribution is a separate `Except` computation. -/
def stepsForEvent (ev : Event) : Except String (List Step) :=
  (if ev.type == "task_updated" then taskSteps (effPayload ev.data) else pure []) >>= fun a1 =>
  (if ev.type == "tool_call" then toolSteps (effPayload ev.data) else pure []) >>= fun a2 =>
  (if ev.type == "call_status" then callSteps (effPayload ev.data) else pure []) >>= fun a3 =>
  (if ev.type == "voice_analysis" then voiceSteps (effPayload ev.data) else pure []) >>= fun a4 =>
  (if ev.type == "entity_extracted" then entitySteps (effPayload ev.data) else pure []) >>= fun a5 =>
  (if ev.type == "graph_updated" then graphSteps (effPayload ev.data) else pure []) >>= fun a6 =>
  (if ev.type == "bill_analyzed" then billSteps (effPayload ev.data) else pure []) >>= fun a7 =>
  (if ev.type == "call_summary" then summarySteps (effPayload ev.data) else pure []) >>= fun a8 =>
  (if ev.type == "modulate_analysis" then modulateSteps (effPayload ev.data) else pure []) >>= fun a9 =>
  (if ev.type == "pii_detected" then piiSteps (effPayload ev.data) else pure []) >>= fun a10 =>
  pure (a1 ++ a2 ++ a3 ++ a4 ++ a5 ++ a6 ++ a7 ++ a8 ++ a9 ++ a10)

/-- `buildReasoningChain`: a single left-to-right scan of the event history,
pushing each event's Steps onto the accumulated chain.  A thrown `TypeError`
anywhere aborts the whole derivation, as it would in JS. -/
def buildReasoningChain (events : List Event) : Except String (List Step) :=
  events.foldlM (fun acc ev => do
    let ss ← stepsForEvent ev
    pure (acc ++ ss)) []

/-! ## Graph Model & Layout Engine (`computeLayout` in `KnowledgeGraph.jsx`) -/

/-- A snapshot node: `{ id, label, name, properties }`. -/
structure GNode where
  id : String
  label : String
  name : String
  properties : Val

/-- A link endpoint as received: the API returns bare string ids, while the
force-graph library rewrites them in place to embedded node objects; the code
only ever reads the embedded object's `id`, which is what we keep. -/
inductive NodeRef where
  | bare : String → NodeRef
  | embedded : String → NodeRef

/-- `typeof ref === "object" ? ref.id : ref`. -/
def refId : NodeRef → String
  | .bare s => s
  | .embedded s => s

/-- A snapshot link: `{ source, target, type, properties }`.  `type` is a
relationship-type string or absent; `properties` is an arbitrary object. -/
structure GLink where
  source : NodeRef
  target : NodeRef
  type : Option String
  properties : Val

/-- The fetched `{ nodes, links }` snapshot. -/
structure GraphData where
  nodes : List GNode
  links : List GLink

/-- `sourceId(l)` of the source. -/
def sourceId (l : GLink) : String :=
  refId l.source

/-- `targetId(l)` of the source. -/
def targetId (l : GLink) : String :=
  refId l.target

/-- A node augmented with its layout position and `active` flag. -/
structure PositionedNode where
  node : GNode
  x : Int
  y : Int
  active : Bool

/-- A rendered edge: endpoint coordinates, display label and the
`properties.status` value driving the cancelled treatment. -/
structure REdge where
  x1 : Int
  y1 : Int
  x2 : Int
  y2 : Int
  label : Option String
  status : Val

/-- The `positions` object of `computeLayout`, as an association list whose
most recent insertion shadows older ones (JS assignment overwrites). -/
abbrev PosMap := List (String × (Int × Int))

/-- The fixed horizontal anchor `CX = 250`. -/
def CX : Int := 250

/-- `serviceStartX = CX - ((services.length - 1) * serviceSpacing) / 2` with
`serviceSpacing = 180` (the division is exact). -/
def serviceStart (n : Nat) : Int :=
  CX - ((n : Int) - 1) * 90

/-- Seed positions: the first `Person` node (if any) at the anchor
`(CX, 80)`. -/
def posAfterPerson (g : GraphData) : PosMap :=
  match g.nodes.find? (fun n => n.label == "Person") with
  | some p => [(p.id, (CX, 80))]
  | none => []

/-- The `services.forEach((s, i) => ...)` loop: each service on the band
`y = 180`, spaced 180 apart from `serviceStartX`. -/
def svcLoop (startX : Int) : List GNode → Nat → PosMap → PosMap
  | [], _, m => m
  | s :: rest, i, m => svcLoop startX rest (i + 1) ((s.id, (startX + (i : Int) * 180, 180)) :: m)

/-- The search predicate of the negotiations loop: the link touches `neg`
and some service. -/
def negLinkPred (services : List GNode) (neg : GNode) (l : GLink) : Bool :=
  (sourceId l == neg.id || targetId l == neg.id) &&
    services.any (fun s => s.id == sourceId l || s.id == targetId l)

/-- The first half of the negotiations loop body (`m1` in the source): if the
first link joining `neg` to a service exists and the service side of that
link is positioned, place `neg` offset-and-staggered below it. -/
def negPlace (links : List GLink) (services : List GNode) (m : PosMap) (i : Nat)
    (neg : GNode) : PosMap :=
  match links.find? (negLinkPred services neg) with
  | some l =>
    match m.lookup (if sourceId l == neg.id then targetId l else sourceId l) with
    | some sp => (neg.id, (sp.1 + 20 * ((i : Int) + 1), sp.2 + 60)) :: m
    | none => m
  | none => m

/-- The full body of `negotiations.forEach((neg, i) => ...)`: after the link
search, a still-unpositioned `neg` goes to the fallback band `y = 240`. -/
def negStep (links : List GLink) (services : List GNode) (m : PosMap) (i : Nat)
    (neg : GNode) : PosMap :=
  if ((negPlace links services m i neg).lookup neg.id).isSome
  then negPlace links services m i neg
  else (neg.id, (CX + 60 * (i : Int), 240)) :: negPlace links services m i neg

/-- The negotiations loop. -/
def negLoop (links : List GLink) (services : List GNode) :
    List GNode → Nat → PosMap → PosMap
  | [], _, m => m
  | neg :: rest, i, m => negLoop links services rest (i + 1) (negStep links services m i neg)

/-- `nodes.filter((n) => n.label === "Service")`. -/
def layoutServices (g : GraphData) : List GNode :=
  g.nodes.filter (fun n => n.label == "Service")

/-- `nodes.filter((n) => n.label === "Negotiation")`. -/
def layoutNegotiations (g : GraphData) : List GNode :=
  g.nodes.filter (fun n => n.label == "Negotiation")

/-- The full `positions` map built by `computeLayout`: person, then services,
then negotiations. -/
def layoutPositions (g : GraphData) : PosMap :=
  negLoop g.links (layoutServices g) (layoutNegotiations g) 0
    (svcLoop (serviceStart (layoutServices g).length) (layoutServices g) 0 (posAfterPerson g))

/-- The `active` flag: a negotiation node, or a service whose
`previousRate` is present and differs (`!==`) from its `monthlyRate`. -/
def activeFlag (n : GNode) : Bool :=
  n.label == "Negotiation" ||
    ((n.properties.getOpt "previousRate").truthy &&
      !(n.properties.getOpt "previousRate").beq (n.properties.getOpt "monthlyRate"))

/-- The closed relationship-type display table. -/
def EDGE_LABELS : List (String × String) :=
  [("SUBSCRIBES_TO", "subscribes to"), ("NEGOTIATED", "negotiated")]

/-- `EDGE_LABELS[l.type] || l.type?.replace(/_/g, " ")`. -/
def edgeLabel : Option String → Option String
  | none => none
  | some s => some ((EDGE_LABELS.lookup s).getD (replaceUnderscores s))

/-- The links surviving the dangling-edge filter: both normalized endpoints
are keys of the positions map. -/
def keptLinks (g : GraphData) : List GLink :=
  g.links.filter (fun l =>
    ((layoutPositions g).lookup (sourceId l)).isSome &&
    ((layoutPositions g).lookup (targetId l)).isSome)

/-- The layout output: `{ positioned, edges }`. -/
structure Layout where
  positioned : List PositionedNode
  edges : List REdge

/-- The `positioned` array: nodes holding a position, in snapshot order,
augmented with their coordinates and `active` flag. -/
def layoutPositioned (g : GraphData) : List PositionedNode :=
  g.nodes.filterMap (fun n =>
    ((layoutPositions g).lookup n.id).map (fun p => ⟨n, p.1, p.2, activeFlag n⟩))

/-- Rendering of one surviving link against the positions map. -/
def renderEdge (pos : PosMap) (l : GLink) : REdge :=
  { x1 := ((pos.lookup (sourceId l)).getD (0, 0)).1,
    y1 := ((pos.lookup (sourceId l)).getD (0, 0)).2,
    x2 := ((pos.lookup (targetId l)).getD (0, 0)).1,
    y2 := ((pos.lookup (targetId l)).getD (0, 0)).2,
    label := edgeLabel l.type, status := l.properties.getOpt "status" }

/-- The rendered edge list: one edge per surviving link. -/
def layoutEdges (g : GraphData) : List REdge :=
  (keptLinks g).map (renderEdge (layoutPositions g))

/-- `computeLayout`: empty snapshot short-circuits to the empty layout;
otherwise nodes with a position are kept (in snapshot order) and every
surviving link is rendered, one edge per link. -/
def computeLayout (g : GraphData) : Layout :=
  if g.nodes.isEmpty then { positioned := [], edges := [] }
  else { positioned := layoutPositioned g, edges := layoutEdges g }

/-! ## Periodic graph-snapshot fetch (`KnowledgeGraph` effect)

The component fires `api.getGraph().then(setGraphData).catch(() => {})` once
on mount and then on a fixed interval, never cancelling an in-flight request
and attaching no guard to the continuation.  Whatever state React holds is
therefore overwritten by each resolution in *completion* order; a rejected
fetch leaves it unchanged.  `applyFetchResults` replays a completion-ordered
sequence of fetch outcomes against an initial displayed snapshot. -/
def applyFetchResults (init : GraphData) (completions : List (Option GraphData)) :
    GraphData :=
  completions.foldl (fun st r => match r with | some g => g | none => st) init

theorem truthy_not_nullish {v : Val} (h : v.truthy = true) : v.isNullish = false := by
  cases v <;> simp_all [Val.truthy, Val.isNullish]

theorem get_of_truthy {v : Val} (f : String) (h : v.truthy = true) :
    v.get f = .ok (v.getOpt f) := by
  simp [Val.get, truthy_not_nullish h]

theorem get_of_not_nullish {v : Val} (f : String) (h : v.isNullish = false) :
    v.get f = .ok (v.getOpt f) := by
  simp [Val.get, h]

/-! ## Stream Buffer lemmas -/

theorem takeRight_eq_self {n : Nat} {l : List Event} (h : l.length ≤ n) :
    takeRight n l = l := by
  simp [takeRight, Nat.sub_eq_zero_of_le h]

theorem takeRight_length_le (n : Nat) (l : List Event) :
    (takeRight n l).length ≤ n := by
  simp only [takeRight, List.length_drop]
  omega

theorem ingest_length_le (h : List Event) (e : Event) :
    (ingest h e).length ≤ 150 := by
  unfold ingest
  split
  · simp
  · exact takeRight_length_le 150 _

theorem ingest_of_not_reset {e : Event} (h : List Event) (he : isReset e = false) :
    ingest h e = takeRight 150 (h ++ [e]) := by
  simp [ingest, he]

theorem takeRight_append_left (n : Nat) (l l2 : List Event) :
    takeRight n (takeRight n l ++ l2) = takeRight n (l ++ l2) := by
  unfold takeRight
  rw [← List.drop_append_of_le_length (Nat.sub_le _ _), List.drop_drop]
  congr 1
  simp only [List.length_append, List.length_drop]
  omega

theorem foldl_ingest_length_le (es : List Event) (h : List Event)
    (hb : h.length ≤ 150) : (es.foldl ingest h).length ≤ 150 := by
  induction es generalizing h with
  | nil => simpa using hb
  | cons e es ih => exact ih _ (ingest_length_le h e)

theorem foldl_ingest_of_no_reset (es : List Event) (h : List Event)
    (hb : h.length ≤ 150) (hnr : ∀ e ∈ es, isReset e = false) :
    es.foldl ingest h = takeRight 150 (h ++ es) := by
  induction es generalizing h with
  | nil => simpa using (takeRight_eq_self hb).symm
  | cons e es ih =>
    have he : isReset e = false := hnr e (List.mem_cons_self e es)
    have step : ingest h e = takeRight 150 (h ++ [e]) := ingest_of_not_reset h he
    calc (e :: es).foldl ingest h = es.foldl ingest (ingest h e) := rfl
      _ = takeRight 150 (takeRight 150 (h ++ [e]) ++ es) := by
          rw [step]
          exact ih _ (takeRight_length_le 150 _) (fun x hx => hnr x (List.mem_cons_of_mem e hx))
      _ = takeRight 150 ((h ++ [e]) ++ es) := takeRight_append_left 150 _ _
      _ = takeRight 150 (h ++ e :: es) := by rw [List.append_assoc]; rfl

theorem getLast_ingest {e : Event} (h : List Event) (he : isReset e = false) :
    (ingest h e).getLast? = some e := by
  rw [ingest_of_not_reset h he]
  unfold takeRight
  rw [List.drop_append_of_le_length (by simp only [List.length_append, List.length_singleton]; omega)]
  exact List.getLast?_concat _

/-! ## Concrete fixtures used by witnesses and counterexamples -/

/-- A reset-marked `task_updated` event. -/
def wResetEvent : Event := ⟨"task_updated", .obj [("reset", .bool true)]⟩

/-- A plain `call_summary` event. -/
def wSummaryEvent : Event := ⟨"call_summary", .obj [("narrative", .str "done")]⟩

/-- The §8 example `entity_extracted` event. -/
def wEntityEvent : Event :=
  ⟨"entity_extracted", .obj [("entity_type", .str "confirmation_number"),
    ("value", .str "CNF-2026-8847")]⟩

/-- A `task_updated` event whose `reset` field is the truthy number `1`. -/
def truthyResetNum : Event := ⟨"task_updated", .obj [("reset", .num 1)]⟩

/-- A `task_updated` event whose `reset` field is the truthy string `"true"`. -/
def truthyResetStr : Event := ⟨"task_updated", .obj [("reset", .str "true")]⟩

/-- A simple non-reset event carrying its index. -/
def mkDetectionEvent (i : Nat) : Event := ⟨"detection", .num i⟩

/-- A feed of 151 sequential non-reset events. -/
def longFeed : List Event := (List.range 151).map mkDetectionEvent

/-- The Step derived from `wSummaryEvent`. -/
def wSummaryStep : Step :=
  ⟨"summary", .str "Agent Summary", .str "done", .str "Haggle Agent", true, .undefined⟩

/-- The Step derived from `wEntityEvent`. -/
def wEntityStep : Step :=
  ⟨"entity", .str "confirmation number", .str "CNF-2026-8847", .str "GLiNER2", false, .undefined⟩

/-! ## Claims about the Stream Buffer -/

/-- **C1**: a reset signal replaces the entire history with the empty
sequence (its length is 0 regardless of prior length, and the derived Step
sequence becomes empty); any other event is appended (verbatim while the
150-bound is not hit), and a non-reset event following a reset yields a Step
sequence identical to replaying that single event against empty history. -/
theorem reset_replaces_history (h : List Event) (r e : Event)
    (hr : isReset r = true) (he : isReset e = false) :
    ingest h r = [] ∧
    buildReasoningChain (ingest h r) = .ok [] ∧
    ingest (ingest h r) e = [e] ∧
    buildReasoningChain (ingest (ingest h r) e) = buildReasoningChain [e] ∧
    (h.length < 150 → ingest h e = h ++ [e]) := by
  have h0 : ingest h r = [] := by simp [ingest, hr]
  have h1 : ingest (ingest h r) e = [e] := by
    rw [h0, ingest_of_not_reset [] he]; rfl
  refine ⟨h0, by rw [h0]; rfl, h1, by rw [h1], ?_⟩
  intro hlen
  rw [ingest_of_not_reset h he]
  exact takeRight_eq_self (by simp only [List.length_append, List.length_singleton]; omega)

theorem reset_replaces_history_witness :
    ingest [wSummaryEvent] wResetEvent = [] ∧
    buildReasoningChain (ingest [wSummaryEvent] wResetEvent) = .ok [] ∧
    ingest (ingest [wSummaryEvent] wResetEvent) wEntityEvent = [wEntityEvent] ∧
    buildReasoningChain (ingest (ingest [wSummaryEvent] wResetEvent) wEntityEvent) =
      buildReasoningChain [wEntityEvent] ∧
    ([wSummaryEvent].length < 150 → ingest [wSummaryEvent] wEntityEvent =
      [wSummaryEvent] ++ [wEntityEvent]) :=
  reset_replaces_history [wSummaryEvent] wResetEvent wEntityEvent rfl rfl

/-- **C2**: the buffered history never exceeds 150 events; with no reset in
the feed the history is exactly the most recent 150 events in original
relative order, and a feed of 151 non-reset events leaves exactly the last
150 (the feed with its first event dropped). -/
theorem retention_bound :
    (∀ (h es : List Event), h.length ≤ 150 → (es.foldl ingest h).length ≤ 150) ∧
    (∀ es : List Event, es.all (fun e => !isReset e) = true →
      es.foldl ingest [] = takeRight 150 es) ∧
    (∀ es : List Event, es.length = 151 → es.all (fun e => !isReset e) = true →
      es.foldl ingest [] = es.drop 1) := by
  have key : ∀ es : List Event, es.all (fun e => !isReset e) = true →
      es.foldl ingest [] = takeRight 150 es := by
    intro es hall
    have hnr : ∀ e ∈ es, isReset e = false := by
      intro e he
      simpa using List.all_eq_true.mp hall e he
    simpa using foldl_ingest_of_no_reset es [] (by simp) hnr
  refine ⟨fun h es hb => foldl_ingest_length_le es h hb, key, ?_⟩
  intro es hlen hall
  rw [key es hall]
  unfold takeRight
  rw [hlen]

theorem retention_bound_witness :
    (longFeed.foldl ingest []).length ≤ 150 ∧
    longFeed.foldl ingest [] = longFeed.drop 1 :=
  ⟨retention_bound.1 [] longFeed (by simp),
   retention_bound.2.2 longFeed rfl rfl⟩

/-- **C9**: the history-clearing branch fires only when the kind is
`task_updated` and the payload's `reset` field is exactly the boolean `true`;
an event of a different kind, or one whose `reset` is a truthy non-boolean
(such as `1` or `"true"`), is appended as an ordinary event and the history
is not cleared. -/
theorem reset_branch_strict (h : List Event) (e : Event)
    (he : e.type ≠ "task_updated" ∨ (e.data.getOpt "reset").eqBoolTrue = false) :
    isReset e = false ∧ ingest h e ≠ [] ∧ (ingest h e).getLast? = some e ∧
    (h.length < 150 → ingest h e = h ++ [e]) := by
  have hr : isReset e = false := by
    unfold isReset
    rcases he with h1 | h1
    · have : (e.type == "task_updated") = false := by simpa using h1
      simp [this]
    · simp [h1]
  refine ⟨hr, ?_, getLast_ingest h hr, ?_⟩
  · rw [ingest_of_not_reset h hr]
    unfold takeRight
    intro hcontra
    have hlen := congrArg List.length hcontra
    simp only [List.length_drop, List.length_append, List.length_singleton,
      List.length_nil] at hlen
    omega
  · intro hlen
    rw [ingest_of_not_reset h hr]
    exact takeRight_eq_self (by simp only [List.length_append, List.length_singleton]; omega)

theorem reset_branch_strict_witness :
    ingest [wSummaryEvent] truthyResetNum = [wSummaryEvent] ++ [truthyResetNum] ∧
    ingest [wSummaryEvent] truthyResetStr = [wSummaryEvent] ++ [truthyResetStr] ∧
    ingest [wSummaryEvent] ⟨"detection", .obj [("reset", .bool true)]⟩ =
      [wSummaryEvent] ++ [⟨"detection", .obj [("reset", .bool true)]⟩] :=
  ⟨(reset_branch_strict [wSummaryEvent] truthyResetNum (Or.inr rfl)).2.2.2 (by decide),
   (reset_branch_strict [wSummaryEvent] truthyResetStr (Or.inr rfl)).2.2.2 (by decide),
   (reset_branch_strict [wSummaryEvent] ⟨"detection", .obj [("reset", .bool true)]⟩
     (Or.inl (by decide))).2.2.2 (by decide)⟩

/-! ## Claims about the Reasoning Chain Deriver -/

/-- **C4**: extending the history by one event only ever appends Steps: if
the chain of `H ++ [e]` derives (without a thrown error) to `ss`, then the
chain of `H` derives to a list of which `ss` is an extension — no earlier
Step is mutated, removed or reordered. -/
theorem chain_monotonic_extension (H : List Event) (e : Event) (ss : List Step)
    (hok : buildReasoningChain (H ++ [e]) = .ok ss) :
    ∃ s1 s2, buildReasoningChain H = .ok s1 ∧ ss = s1 ++ s2 := by
  unfold buildReasoningChain at hok ⊢
  rw [List.foldlM_append] at hok
  cases hH : List.foldlM (fun acc ev => do
      let s ← stepsForEvent ev
      pure (acc ++ s)) ([] : List Step) H with
  | error msg =>
    rw [hH] at hok
    simp only [Bind.bind, Except.bind] at hok
    exact absurd hok (by simp)
  | ok s1 =>
    rw [hH] at hok
    cases hE : stepsForEvent e with
    | error msg =>
      simp only [Bind.bind, Except.bind, List.foldlM, hE, Pure.pure] at hok
      exact absurd hok (by simp)
    | ok t =>
      simp only [Bind.bind, Except.bind, List.foldlM, hE, Pure.pure] at hok
      exact ⟨s1, t, rfl, by injection hok with h2; exact h2.symm⟩

/-- The concrete chain of `[wSummaryEvent, wEntityEvent]`. -/
def wBothSteps : List Step := [wSummaryStep, wEntityStep]

theorem chain_monotonic_extension_witness :
    ∃ s1 s2, buildReasoningChain [wSummaryEvent] = .ok s1 ∧ wBothSteps = s1 ++ s2 :=
  chain_monotonic_extension [wSummaryEvent] wEntityEvent wBothSteps (by rfl)

/-! ## Reduction lemmas for the `Except` plumbing -/

theorem ok_bind {α β : Type} (a : α) (f : α → Except String β) :
    (Except.ok a : Except String α) >>= f = f a := rfl

theorem error_bind {α β : Type} (m : String) (f : α → Except String β) :
    (Except.error m : Except String α) >>= f = .error m := rfl

theorem pure_eq_ok {α : Type} (a : α) : (pure a : Except String α) = .ok a := rfl

theorem effPayload_not_nullish (v : Val) : (effPayload v).isNullish = false := by
  unfold effPayload jsOr
  split
  · exact truthy_not_nullish (by assumption)
  · rfl

theorem eqStr_true_iff {v : Val} {t : String} : v.eqStr t = true ↔ v = .str t := by
  cases v <;> simp [Val.eqStr]

theorem getOpt_truthy_receiver {v : Val} {f : String}
    (h : (v.getOpt f).truthy = true) : v.isNullish = false := by
  cases v <;> simp_all [Val.getOpt, Val.truthy, Val.isNullish]

theorem chain_singleton (ev : Event) : buildReasoningChain [ev] = stepsForEvent ev := by
  unfold buildReasoningChain
  cases h : stepsForEvent ev with
  | error m => simp [List.foldlM, h, error_bind]
  | ok ss => simp [List.foldlM, h, ok_bind]

/-! ## Characterization of the `task_updated` rules -/

/-- The Step of the phase-`research` rule. -/
def researchStep (d : Val) : Step :=
  ⟨"research", .str "Research Phase",
   jsOr (d.getOpt "message") (.str "Gathering competitive intelligence and context..."),
   .str "Tavily + Senso", false, .undefined⟩

/-- The Step of the phase-`research_complete` rule. -/
def strategyStep : Step :=
  ⟨"strategy", .str "Strategy Formed",
   .str "Analysis complete — negotiation approach determined",
   .str "Haggle Engine", false, .undefined⟩

/-- The Step of the `confirmed_action` rule. -/
def confirmedStep (d : Val) : Step :=
  ⟨"summary",
   .str ("User Confirmed: " ++
     (if ((d.getOpt "confirmed_action").getOpt "action").eqStr "cancel_service"
      then "Cancel" else "Negotiate") ++ " " ++
     ((d.getOpt "confirmed_action").getOpt "service").toDisplay),
   jsOr ((d.getOpt "confirmed_action").getOpt "reason")
     (.str ("Target savings: $" ++
       ((d.getOpt "confirmed_action").getOpt "monthly_savings").toDisplay ++ "/mo")),
   .str "User Decision", true, .undefined⟩

/-- The Step of the phase-`dispatch` rule. -/
def dispatchStep (d : Val) : Step :=
  ⟨"call", .str "Dispatching Service Calls",
   jsOr (d.getOpt "message") (.str "Initiating autonomous negotiation..."),
   .str "Vapi", false, .undefined⟩

theorem taskSteps_eq (d : Val) (hd : d.isNullish = false) :
    taskSteps d = .ok (
      (if (d.getOpt "phase").eqStr "research" then [researchStep d] else []) ++
      ((if (d.getOpt "phase").eqStr "research_complete" then [strategyStep] else []) ++
       ((if (d.getOpt "confirmed_action").truthy then [confirmedStep d] else []) ++
        (if (d.getOpt "phase").eqStr "dispatch" then [dispatchStep d] else [])))) := by
  unfold taskSteps
  rw [get_of_not_nullish "phase" hd, get_of_not_nullish "message" hd,
    get_of_not_nullish "confirmed_action" hd]
  simp only [ok_bind]
  cases hca : (d.getOpt "confirmed_action").truthy with
  | false =>
    simp only [hca, if_false, Bool.false_eq_true, pure_eq_ok, ok_bind]
    simp only [List.append_assoc]
    rfl
  | true =>
    have hcn : (d.getOpt "confirmed_action").isNullish = false := truthy_not_nullish hca
    simp only [hca, if_true, get_of_not_nullish "action" hcn,
      get_of_not_nullish "service" hcn, get_of_not_nullish "reason" hcn,
      get_of_not_nullish "monthly_savings" hcn, ok_bind, pure_eq_ok]
    simp only [List.append_assoc]
    rfl

theorem stepsForEvent_task_ok {pl : Val} {ss : List Step}
    (h : taskSteps (effPayload pl) = .ok ss) :
    stepsForEvent ⟨"task_updated", pl⟩ = .ok ss := by
  have key : stepsForEvent ⟨"task_updated", pl⟩ =
      (taskSteps (effPayload pl)) >>= (fun a1 =>
        pure (a1 ++ [] ++ [] ++ [] ++ [] ++ [] ++ [] ++ [] ++ [] ++ [])) := rfl
  rw [key, h, ok_bind, pure_eq_ok]
  simp

/-- **C3 counterexample**: a single `task_updated` event carrying both
`phase = "dispatch"` and a `confirmed_action` makes both rows fire, but the
`confirmed_action` Step comes *before* the phase-based dispatch Step —
refuting the claim that the `confirmed_action` Step comes after any
phase-based Step of the same event. -/
theorem confirmed_action_precedes_dispatch_cex :
    (buildReasoningChain [⟨"task_updated", .obj [("phase", .str "dispatch"),
        ("confirmed_action", .obj [("action", .str "cancel_service"),
          ("service", .str "Comcast"), ("monthly_savings", .num 20)])]⟩]).map
      (fun l => l.map (fun s => (s.category, s.label))) =
    .ok [("summary", .str "User Confirmed: Cancel Comcast"),
         ("call", .str "Dispatching Service Calls")] := by
  rfl

/-- **C3 amended**: for a single `task_updated` event matching several rows,
all applicable rows fire, one Step each, contiguously, in the fixed source
order (phase `research`, phase `research_complete`, `confirmed_action`,
phase `dispatch`).  The `confirmed_action` Step therefore comes after a
`research`/`research_complete` phase Step but *before* a `dispatch` phase
Step from the same event. -/
theorem task_update_rule_order (pl : Val)
    (hca : ((effPayload pl).getOpt "confirmed_action").truthy = true) :
    (((effPayload pl).getOpt "phase").eqStr "research" = true →
      stepsForEvent ⟨"task_updated", pl⟩ =
        .ok [researchStep (effPayload pl), confirmedStep (effPayload pl)]) ∧
    (((effPayload pl).getOpt "phase").eqStr "research_complete" = true →
      stepsForEvent ⟨"task_updated", pl⟩ =
        .ok [strategyStep, confirmedStep (effPayload pl)]) ∧
    (((effPayload pl).getOpt "phase").eqStr "dispatch" = true →
      stepsForEvent ⟨"task_updated", pl⟩ =
        .ok [confirmedStep (effPayload pl), dispatchStep (effPayload pl)]) := by
  have hd := effPayload_not_nullish pl
  have hts := taskSteps_eq (effPayload pl) hd
  refine ⟨fun hp => ?_, fun hp => ?_, fun hp => ?_⟩ <;>
    rw [eqStr_true_iff.mp hp] at hts <;>
    apply stepsForEvent_task_ok <;>
    simpa [hca, Val.eqStr] using hts

theorem task_update_rule_order_witness :
    stepsForEvent ⟨"task_updated", .obj [("phase", .str "dispatch"),
        ("confirmed_action", .obj [("action", .str "negotiate"),
          ("service", .str "Netflix")])]⟩ =
      .ok [confirmedStep (effPayload (.obj [("phase", .str "dispatch"),
            ("confirmed_action", .obj [("action", .str "negotiate"),
              ("service", .str "Netflix")])])),
           dispatchStep (effPayload (.obj [("phase", .str "dispatch"),
            ("confirmed_action", .obj [("action", .str "negotiate"),
              ("service", .str "Netflix")])]))] :=
  (task_update_rule_order (.obj [("phase", .str "dispatch"),
    ("confirmed_action", .obj [("action", .str "negotiate"),
      ("service", .str "Netflix")])]) rfl).2.2 rfl

/-! ## Totality of the deriver (C7) -/

/-- A `Val` that is a string or absent: the documented shape of
`entity_type`. -/
def strOrAbsent : Val → Bool
  | .undefined => true
  | .null => true
  | .str _ => true
  | _ => false

/-- A `Val` that is an array or absent: the documented shape of
`key_insights`. -/
def arrOrAbsent : Val → Bool
  | .undefined => true
  | .null => true
  | .arr _ => true
  | _ => false

theorem exists_ok_bind {α β : Type} {x : Except String α} {f : α → Except String β}
    (hx : ∃ a, x = .ok a) (hf : ∀ a, ∃ b, f a = .ok b) : ∃ b, x >>= f = .ok b := by
  obtain ⟨a, ha⟩ := hx
  rw [ha, ok_bind]
  exact hf a

theorem exists_ok_ite {c : Bool} {x : Except String (List Step)}
    (hx : ∃ ss, x = .ok ss) :
    ∃ ss, (if c = true then x else pure ([] : List Step)) = .ok ss := by
  cases c
  · exact ⟨[], rfl⟩
  · simpa using hx

theorem toolSteps_isOk (d : Val) (hd : d.isNullish = false) :
    ∃ ss, toolSteps d = .ok ss := by
  unfold toolSteps
  rw [get_of_not_nullish "tool" hd]
  exact ⟨_, rfl⟩

theorem callSteps_isOk (d : Val) (hd : d.isNullish = false) :
    ∃ ss, callSteps d = .ok ss := by
  unfold callSteps
  rw [get_of_not_nullish "status" hd, get_of_not_nullish "company" hd,
    get_of_not_nullish "duration_seconds" hd, get_of_not_nullish "outcome" hd]
  exact ⟨_, rfl⟩

theorem voiceSteps_isOk (d : Val) (hd : d.isNullish = false)
    (hki : arrOrAbsent (d.getOpt "key_insights") = true) :
    ∃ ss, voiceSteps d = .ok ss := by
  unfold voiceSteps
  rw [get_of_not_nullish "key_insights" hd, get_of_not_nullish "emotion" hd]
  simp only [ok_bind]
  cases hv : d.getOpt "key_insights" with
  | arr xs =>
    cases hpos : jsLenPos (jsOr (.arr xs) (.arr [])) with
    | false => exact ⟨_, rfl⟩
    | true => exact ⟨_, rfl⟩
  | undefined => exact ⟨_, rfl⟩
  | null => exact ⟨_, rfl⟩
  | bool b => rw [hv] at hki; cases hki
  | num n => rw [hv] at hki; cases hki
  | str s => rw [hv] at hki; cases hki
  | obj fs => rw [hv] at hki; cases hki

theorem entitySteps_isOk (d : Val) (hd : d.isNullish = false)
    (het : strOrAbsent (d.getOpt "entity_type") = true) :
    ∃ ss, entitySteps d = .ok ss := by
  unfold entitySteps
  rw [get_of_not_nullish "entity_type" hd, get_of_not_nullish "value" hd,
    get_of_not_nullish "extraction_source" hd, get_of_not_nullish "gliner2_extras" hd]
  simp only [ok_bind]
  cases hv : d.getOpt "entity_type" with
  | str s =>
    unfold jsOr
    split
    · exact ⟨_, rfl⟩
    · exact ⟨_, rfl⟩
  | undefined => exact ⟨_, rfl⟩
  | null => exact ⟨_, rfl⟩
  | bool b => rw [hv] at het; cases het
  | num n => rw [hv] at het; cases het
  | arr xs => rw [hv] at het; cases het
  | obj fs => rw [hv] at het; cases het

theorem graphSteps_isOk (d : Val) (hd : d.isNullish = false) :
    ∃ ss, graphSteps d = .ok ss := by
  unfold graphSteps
  rw [get_of_not_nullish "details" hd, get_of_not_nullish "service" hd]
  simp only [ok_bind]
  cases hs : ((d.getOpt "details").getOpt "monthly_savings").truthy with
  | false => exact ⟨_, rfl⟩
  | true =>
    have hdet : (d.getOpt "details").isNullish = false := getOpt_truthy_receiver hs
    rw [get_of_not_nullish "annual_savings" hdet]
    exact ⟨_, rfl⟩

theorem billSteps_isOk (d : Val) (hd : d.isNullish = false) :
    ∃ ss, billSteps d = .ok ss := by
  unfold billSteps
  rw [get_of_not_nullish "provider_name" hd, get_of_not_nullish "total_amount" hd,
    get_of_not_nullish "price_change" hd]
  exact ⟨_, rfl⟩

theorem summarySteps_isOk (d : Val) (hd : d.isNullish = false) :
    ∃ ss, summarySteps d = .ok ss := by
  unfold summarySteps
  rw [get_of_not_nullish "narrative" hd, get_of_not_nullish "key_points" hd]
  exact ⟨_, rfl⟩

theorem modulateSteps_isOk (d : Val) (hd : d.isNullish = false) :
    ∃ ss, modulateSteps d = .ok ss := by
  unfold modulateSteps
  rw [get_of_not_nullish "agent_performance" hd]
  simp only [ok_bind]
  have hperf : (jsOr (d.getOpt "agent_performance") (Val.obj [])).isNullish = false := by
    unfold jsOr
    split
    · exact truthy_not_nullish (by assumption)
    · rfl
  rw [get_of_not_nullish "professionalism" hperf]
  simp only [ok_bind]
  cases hp : ((jsOr (d.getOpt "agent_performance") (Val.obj [])).getOpt "professionalism").truthy with
  | false => exact ⟨_, rfl⟩
  | true =>
    have hprof := truthy_not_nullish hp
    rw [get_of_not_nullish "grade" hprof, get_of_not_nullish "summary_note" hperf]
    exact ⟨_, rfl⟩

theorem piiSteps_isOk (d : Val) (hd : d.isNullish = false) :
    ∃ ss, piiSteps d = .ok ss := by
  unfold piiSteps
  rw [get_of_not_nullish "count" hd]
  exact ⟨_, rfl⟩

/-- **C7**: the deriver is total on well-formed histories: for every event of
any kind whose payload fields are arbitrarily absent (including a missing
payload object altogether) — with any fields that *are* present carrying
their documented shapes, which for throw-safety only matters for
`entity_type` (a string) and `key_insights` (a list) — every dispatch rule
returns zero or more Steps and no `TypeError` is thrown by assuming a
field's presence. -/
theorem deriver_total (ev : Event)
    (h1 : strOrAbsent ((effPayload ev.data).getOpt "entity_type") = true)
    (h2 : arrOrAbsent ((effPayload ev.data).getOpt "key_insights") = true) :
    ∃ ss, stepsForEvent ev = .ok ss := by
  have hd := effPayload_not_nullish ev.data
  unfold stepsForEvent
  refine exists_ok_bind (exists_ok_ite ⟨_, taskSteps_eq _ hd⟩) fun a1 => ?_
  refine exists_ok_bind (exists_ok_ite (toolSteps_isOk _ hd)) fun a2 => ?_
  refine exists_ok_bind (exists_ok_ite (callSteps_isOk _ hd)) fun a3 => ?_
  refine exists_ok_bind (exists_ok_ite (voiceSteps_isOk _ hd h2)) fun a4 => ?_
  refine exists_ok_bind (exists_ok_ite (entitySteps_isOk _ hd h1)) fun a5 => ?_
  refine exists_ok_bind (exists_ok_ite (graphSteps_isOk _ hd)) fun a6 => ?_
  refine exists_ok_bind (exists_ok_ite (billSteps_isOk _ hd)) fun a7 => ?_
  refine exists_ok_bind (exists_ok_ite (summarySteps_isOk _ hd)) fun a8 => ?_
  refine exists_ok_bind (exists_ok_ite (modulateSteps_isOk _ hd)) fun a9 => ?_
  refine exists_ok_bind (exists_ok_ite (piiSteps_isOk _ hd)) fun a10 => ?_
  exact ⟨_, rfl⟩

theorem deriver_total_witness :
    (∃ ss, stepsForEvent ⟨"voice_analysis", .undefined⟩ = .ok ss) ∧
    (∃ ss, stepsForEvent ⟨"entity_extracted", .obj []⟩ = .ok ss) :=
  ⟨deriver_total ⟨"voice_analysis", .undefined⟩ rfl rfl,
   deriver_total ⟨"entity_extracted", .obj []⟩ rfl rfl⟩

/-! ## The periodic snapshot fetch (C8) -/

/-- Result of the fetch that was initiated first (and completes last). -/
def earlyFetchResult : GraphData := ⟨[], []⟩

/-- Result of the fetch that was initiated second (and completes first). -/
def lateFetchResult : GraphData := ⟨[⟨"p1", "Person", "You", .obj []⟩], []⟩

/-- **C8 counterexample**: two overlapping fetches resolve out of order — the
later-initiated fetch completes first with `lateFetchResult`, then the
earlier-initiated fetch's stale `earlyFetchResult` arrives.  The claim says
the stale result is discarded and `lateFetchResult` stays displayed; the
code, having no initiation-order guard, displays the stale
`earlyFetchResult`. -/
theorem stale_fetch_overwrites_cex :
    applyFetchResults ⟨[], []⟩ [some lateFetchResult, some earlyFetchResult] =
      earlyFetchResult ∧ earlyFetchResult ≠ lateFetchResult := by
  refine ⟨rfl, fun h => ?_⟩
  have hlen := congrArg (fun g => g.nodes.length) h
  simp [earlyFetchResult, lateFetchResult] at hlen

/-- **C8 amended**: overlapping in-flight fetches are tolerated (none is
cancelled and a failed fetch leaves the displayed snapshot unchanged), but
the result applied is that of the *last fetch to complete* — last-writer-by-
completion-order — so a late-arriving result of an earlier-initiated fetch
overwrites a newer one rather than being discarded. -/
theorem last_completed_fetch_wins (init : GraphData)
    (completions : List (Option GraphData)) :
    applyFetchResults init completions = (completions.filterMap id).getLastD init := by
  induction completions generalizing init with
  | nil => rfl
  | cons c rest ih =>
    cases c with
    | none => simpa [applyFetchResults, List.filterMap_cons] using ih init
    | some g =>
      show applyFetchResults g rest = ((some g :: rest).filterMap id).getLastD init
      have hrw : ((some g :: rest).filterMap id).getLastD init =
          (rest.filterMap id).getLastD g := List.getLastD_cons init g _
      rw [hrw]
      exact ih g

/-! ## Layout lemmas: the positions map -/

theorem lookup_cons_self {m : PosMap} {k : String} (v : Int × Int) :
    (((k, v) :: m : PosMap).lookup k) = some v := by
  rw [List.lookup_cons]
  simp

theorem lookup_isSome_mono {m : PosMap} {k : String} (x : String × (Int × Int))
    (h : (m.lookup k).isSome = true) : ((x :: m).lookup k).isSome = true := by
  rcases x with ⟨a, v⟩
  rw [List.lookup_cons]
  cases hk : k == a
  · exact h
  · rfl

theorem negPlace_cases (links : List GLink) (services : List GNode) (m : PosMap)
    (i : Nat) (neg : GNode) :
    negPlace links services m i neg = m ∨
      ∃ v, negPlace links services m i neg = (neg.id, v) :: m := by
  unfold negPlace
  split
  · split
    · exact Or.inr ⟨_, rfl⟩
    · exact Or.inl rfl
  · exact Or.inl rfl

theorem negStep_cases (links : List GLink) (services : List GNode) (m : PosMap)
    (i : Nat) (neg : GNode) :
    negStep links services m i neg = m ∨
      ∃ v m1, (m1 = m ∨ ∃ w, m1 = (neg.id, w) :: m) ∧
        negStep links services m i neg = (neg.id, v) :: m1 := by
  unfold negStep
  rcases negPlace_cases links services m i neg with hp | ⟨v, hp⟩ <;> rw [hp] <;> split
  · exact Or.inl rfl
  · exact Or.inr ⟨_, m, Or.inl rfl, rfl⟩
  · exact Or.inr ⟨v, m, Or.inl rfl, rfl⟩
  · exact Or.inr ⟨_, (neg.id, v) :: m, Or.inr ⟨v, rfl⟩, rfl⟩

theorem negStep_mem (links : List GLink) (services : List GNode) (m : PosMap)
    (i : Nat) (neg : GNode) :
    ∀ e ∈ negStep links services m i neg, e ∈ m ∨ e.1 = neg.id := by
  intro e he
  rcases negStep_cases links services m i neg with hc | ⟨v, m1, hm1, hc⟩
  · rw [hc] at he; exact Or.inl he
  · rw [hc] at he
    rcases List.mem_cons.mp he with rfl | he1
    · exact Or.inr rfl
    · rcases hm1 with rfl | ⟨w, rfl⟩
      · exact Or.inl he1
      · rcases List.mem_cons.mp he1 with rfl | he2
        · exact Or.inr rfl
        · exact Or.inl he2

theorem negStep_lookup_mono (links : List GLink) (services : List GNode)
    (m : PosMap) (i : Nat) (neg : GNode) {k : String}
    (h : (m.lookup k).isSome = true) :
    ((negStep links services m i neg).lookup k).isSome = true := by
  rcases negStep_cases links services m i neg with hc | ⟨v, m1, hm1, hc⟩ <;> rw [hc]
  · exact h
  · apply lookup_isSome_mono
    rcases hm1 with rfl | ⟨w, rfl⟩
    · exact h
    · exact lookup_isSome_mono _ h

theorem negStep_lookup_self (links : List GLink) (services : List GNode)
    (m : PosMap) (i : Nat) (neg : GNode) :
    ((negStep links services m i neg).lookup neg.id).isSome = true := by
  unfold negStep
  cases hs : ((negPlace links services m i neg).lookup neg.id).isSome with
  | false => rw [if_neg (by simp [hs]), lookup_cons_self]; rfl
  | true => rw [if_pos (by simp [hs])]; exact hs

theorem negLoop_mem (links : List GLink) (services : List GNode) :
    ∀ (negs : List GNode) (i : Nat) (m : PosMap),
      ∀ e ∈ negLoop links services negs i m, e ∈ m ∨ ∃ n ∈ negs, e.1 = n.id := by
  intro negs
  induction negs with
  | nil => intro i m e he; exact Or.inl he
  | cons neg rest ih =>
    intro i m e he
    rcases ih (i + 1) (negStep links services m i neg) e he with hm | ⟨n, hn, he1⟩
    · rcases negStep_mem links services m i neg e hm with hm1 | he1
      · exact Or.inl hm1
      · exact Or.inr ⟨neg, List.mem_cons_self neg rest, he1⟩
    · exact Or.inr ⟨n, List.mem_cons_of_mem neg hn, he1⟩

theorem negLoop_lookup_mono (links : List GLink) (services : List GNode) :
    ∀ (negs : List GNode) (i : Nat) (m : PosMap) {k : String},
      (m.lookup k).isSome = true →
      ((negLoop links services negs i m).lookup k).isSome = true := by
  intro negs
  induction negs with
  | nil => intro i m k h; exact h
  | cons neg rest ih =>
    intro i m k h
    exact ih (i + 1) _ (negStep_lookup_mono links services m i neg h)

theorem negLoop_lookup_self (links : List GLink) (services : List GNode) :
    ∀ (negs : List GNode) (i : Nat) (m : PosMap), ∀ n ∈ negs,
      ((negLoop links services negs i m).lookup n.id).isSome = true := by
  intro negs
  induction negs with
  | nil => intro i m n hn; cases hn
  | cons neg rest ih =>
    intro i m n hn
    rcases List.mem_cons.mp hn with rfl | hn1
    · exact negLoop_lookup_mono links services rest (i + 1) _
        (negStep_lookup_self links services m i n)
    · exact ih (i + 1) _ n hn1

theorem svcLoop_mem (startX : Int) :
    ∀ (ss : List GNode) (i : Nat) (m : PosMap),
      ∀ e ∈ svcLoop startX ss i m, e ∈ m ∨ ∃ s ∈ ss, e.1 = s.id := by
  intro ss
  induction ss with
  | nil => intro i m e he; exact Or.inl he
  | cons s rest ih =>
    intro i m e he
    rcases ih (i + 1) _ e he with hm | ⟨t, ht, he1⟩
    · rcases List.mem_cons.mp hm with rfl | hm1
      · exact Or.inr ⟨s, List.mem_cons_self s rest, rfl⟩
      · exact Or.inl hm1
    · exact Or.inr ⟨t, List.mem_cons_of_mem s ht, he1⟩

theorem svcLoop_lookup_mono (startX : Int) :
    ∀ (ss : List GNode) (i : Nat) (m : PosMap) {k : String},
      (m.lookup k).isSome = true →
      ((svcLoop startX ss i m).lookup k).isSome = true := by
  intro ss
  induction ss with
  | nil => intro i m k h; exact h
  | cons s rest ih =>
    intro i m k h
    exact ih (i + 1) _ (lookup_isSome_mono _ h)

theorem svcLoop_lookup_self (startX : Int) :
    ∀ (ss : List GNode) (i : Nat) (m : PosMap), ∀ s ∈ ss,
      ((svcLoop startX ss i m).lookup s.id).isSome = true := by
  intro ss
  induction ss with
  | nil => intro i m s hs; cases hs
  | cons t rest ih =>
    intro i m s hs
    rcases List.mem_cons.mp hs with rfl | hs1
    · exact svcLoop_lookup_mono startX rest (i + 1) _
        (by rw [lookup_cons_self]; rfl)
    · exact ih (i + 1) _ s hs1

theorem posAfterPerson_mem (g : GraphData) :
    ∀ e ∈ posAfterPerson g,
      ∃ p, g.nodes.find? (fun x => x.label == "Person") = some p ∧ e.1 = p.id := by
  intro e he
  unfold posAfterPerson at he
  split at he
  · rename_i p hp
    rw [List.mem_singleton] at he
    subst he
    exact ⟨p, hp, rfl⟩
  · cases he

theorem lookup_isSome_exists_mem {m : PosMap} {k : String}
    (h : (m.lookup k).isSome = true) : ∃ v, (k, v) ∈ m := by
  induction m with
  | nil => cases h
  | cons x rest ih =>
    rcases x with ⟨a, v⟩
    rw [List.lookup_cons] at h
    cases hk : k == a
    · rw [hk] at h
      obtain ⟨w, hw⟩ := ih h
      exact ⟨w, List.mem_cons_of_mem _ hw⟩
    · have hka : k = a := by simpa using hk
      subst hka
      exact ⟨v, List.mem_cons_self _ _⟩

theorem layoutPositions_mem (g : GraphData) :
    ∀ e ∈ layoutPositions g,
      (∃ p, g.nodes.find? (fun x => x.label == "Person") = some p ∧ e.1 = p.id) ∨
      (∃ s ∈ layoutServices g, e.1 = s.id) ∨
      (∃ t ∈ layoutNegotiations g, e.1 = t.id) := by
  intro e he
  unfold layoutPositions at he
  rcases negLoop_mem _ _ _ _ _ e he with hm | h
  · rcases svcLoop_mem _ _ _ _ e hm with hp | h
    · exact Or.inl (posAfterPerson_mem g e hp)
    · exact Or.inr (Or.inl h)
  · exact Or.inr (Or.inr h)

/-- The role predicate the layout implements: a node is positioned exactly
when it is a Service node, a Negotiation node, or the first Person node of
the snapshot. -/
def keepNodeB (g : GraphData) (n : GNode) : Bool :=
  n.label == "Service" || n.label == "Negotiation" ||
    (match g.nodes.find? (fun x => x.label == "Person") with
     | some p => p.id == n.id
     | none => false)

theorem nodes_id_inj {g : GraphData} (hnd : (g.nodes.map (fun n => n.id)).Nodup)
    {a b : GNode} (ha : a ∈ g.nodes) (hb : b ∈ g.nodes) (hid : a.id = b.id) :
    a = b :=
  List.inj_on_of_nodup_map hnd ha hb hid

theorem lookup_layoutPositions_eq_keep (g : GraphData)
    (hnd : (g.nodes.map (fun n => n.id)).Nodup) {n : GNode} (hn : n ∈ g.nodes) :
    ((layoutPositions g).lookup n.id).isSome = keepNodeB g n := by
  cases hk : keepNodeB g n with
  | true =>
    unfold keepNodeB at hk
    rw [Bool.or_eq_true, Bool.or_eq_true] at hk
    unfold layoutPositions
    rcases hk with (hsvc | hneg) | hper
    · exact negLoop_lookup_mono _ _ _ _ _
        (svcLoop_lookup_self _ _ _ _ n (List.mem_filter.mpr ⟨hn, hsvc⟩))
    · exact negLoop_lookup_self _ _ _ _ _ n (List.mem_filter.mpr ⟨hn, hneg⟩)
    · apply negLoop_lookup_mono
      apply svcLoop_lookup_mono
      revert hper
      unfold posAfterPerson
      split
      · rename_i p hp
        intro hper
        have hpid : p.id = n.id := by simpa using hper
        rw [← hpid, lookup_cons_self]
        rfl
      · intro hper
        cases hper
  | false =>
    cases hs : ((layoutPositions g).lookup n.id).isSome with
    | false => rfl
    | true =>
      exfalso
      obtain ⟨v, hv⟩ := lookup_isSome_exists_mem hs
      have hkt : keepNodeB g n = true := by
        rcases layoutPositions_mem g _ hv with ⟨p, hp, hid⟩ | ⟨s, hsm, hid⟩ | ⟨t, htm, hid⟩
        · have hid2 : n.id = p.id := hid
          unfold keepNodeB
          rw [hp]
          simp [hid2]
        · obtain ⟨hsn, hsl⟩ := List.mem_filter.mp hsm
          have : s = n := nodes_id_inj hnd hsn hn hid.symm
          subst this
          unfold keepNodeB
          simp [hsl]
        · obtain ⟨htn, htl⟩ := List.mem_filter.mp htm
          have : t = n := nodes_id_inj hnd htn hn hid.symm
          subst this
          unfold keepNodeB
          simp [htl]
      rw [hk] at hkt
      cases hkt

theorem filterMap_positioned_map_node (pos : PosMap) (ns : List GNode) :
    (ns.filterMap (fun n => (pos.lookup n.id).map (fun p =>
      (⟨n, p.1, p.2, activeFlag n⟩ : PositionedNode)))).map (fun x => x.node) =
    ns.filter (fun n => (pos.lookup n.id).isSome) := by
  induction ns with
  | nil => rfl
  | cons n rest ih =>
    rw [List.filterMap_cons, List.filter_cons]
    cases hl : pos.lookup n.id with
    | none => simpa using ih
    | some p => simpa using ih

/-- **C10**: with unique node ids, the positioned nodes are exactly the nodes
whose role the layout recognizes — Service nodes, Negotiation nodes, and at
most one subject, the first Person in snapshot order — in snapshot order; a
node with any other label, or a Person other than the first, is silently
omitted, and every link touching an omitted node is dropped like a dangling
edge. -/
theorem positioned_roles (g : GraphData)
    (hnd : (g.nodes.map (fun n => n.id)).Nodup) :
    ((computeLayout g).positioned.map (fun x => x.node) = g.nodes.filter (keepNodeB g)) ∧
    (∀ l ∈ g.links, ∀ n ∈ g.nodes, keepNodeB g n = false →
      (sourceId l = n.id ∨ targetId l = n.id) → l ∉ keptLinks g) := by
  constructor
  · unfold computeLayout
    split
    · rename_i hemp
      rw [List.isEmpty_iff] at hemp
      rw [hemp]
      rfl
    · show (layoutPositioned g).map (fun x => x.node) = _
      unfold layoutPositioned
      rw [filterMap_positioned_map_node]
      exact List.filter_congr (fun n hn => lookup_layoutPositions_eq_keep g hnd hn)
  · intro l hl n hn hkeep htouch hmem
    have hcond := (List.mem_filter.mp hmem).2
    rw [Bool.and_eq_true] at hcond
    have hnone : ((layoutPositions g).lookup n.id).isSome = false := by
      rw [lookup_layoutPositions_eq_keep g hnd hn]
      exact hkeep
    rcases htouch with hsrc | htgt
    · rw [hsrc] at hcond
      rw [hcond.1] at hnone
      cases hnone
    · rw [htgt] at hcond
      rw [hcond.2] at hnone
      cases hnone

/-- A snapshot with two Person nodes, an unrecognized `Widget` node, one
Service node, and one link touching the second Person. -/
def extraRolesGraph : GraphData :=
  ⟨[⟨"p1", "Person", "You", .obj []⟩, ⟨"p2", "Person", "Other", .obj []⟩,
    ⟨"u1", "Widget", "W", .obj []⟩, ⟨"s1", "Service", "Comcast", .obj []⟩],
   [⟨.bare "p2", .bare "s1", some "SUBSCRIBES_TO", .obj []⟩]⟩

theorem positioned_roles_witness :
    ((computeLayout extraRolesGraph).positioned.map (fun x => x.node) =
      extraRolesGraph.nodes.filter (keepNodeB extraRolesGraph)) ∧
    ⟨.bare "p2", .bare "s1", some "SUBSCRIBES_TO", .obj []⟩ ∉ keptLinks extraRolesGraph :=
  ⟨(positioned_roles extraRolesGraph (by decide)).1,
   (positioned_roles extraRolesGraph (by decide)).2
     ⟨.bare "p2", .bare "s1", some "SUBSCRIBES_TO", .obj []⟩ (List.mem_singleton.mpr rfl)
     ⟨"p2", "Person", "Other", .obj []⟩ (List.Mem.tail _ (List.Mem.head _))
     rfl (Or.inl rfl)⟩

/-! ## Endpoint-reference normalization (C5) -/

/-- The "resolve endpoint reference" step applied to both endpoints: every
ref becomes a bare id. -/
def normalizeLink (l : GLink) : GLink :=
  ⟨.bare (sourceId l), .bare (targetId l), l.type, l.properties⟩

theorem find?_normalize (services : List GNode) (neg : GNode) (links : List GLink) :
    (links.map normalizeLink).find? (negLinkPred services neg) =
      (links.find? (negLinkPred services neg)).map normalizeLink := by
  rw [List.find?_map]
  rw [show negLinkPred services neg ∘ normalizeLink = negLinkPred services neg from
    funext fun l => rfl]

theorem negPlace_normalize (links : List GLink) (services : List GNode)
    (m : PosMap) (i : Nat) (neg : GNode) :
    negPlace (links.map normalizeLink) services m i neg =
      negPlace links services m i neg := by
  unfold negPlace
  rw [find?_normalize]
  cases links.find? (negLinkPred services neg) with
  | none => rfl
  | some l => rfl

theorem negStep_normalize (links : List GLink) (services : List GNode)
    (m : PosMap) (i : Nat) (neg : GNode) :
    negStep (links.map normalizeLink) services m i neg =
      negStep links services m i neg := by
  unfold negStep
  rw [negPlace_normalize]

theorem negLoop_normalize (links : List GLink) (services : List GNode) :
    ∀ (negs : List GNode) (i : Nat) (m : PosMap),
      negLoop (links.map normalizeLink) services negs i m =
        negLoop links services negs i m := by
  intro negs
  induction negs with
  | nil => intro i m; rfl
  | cons neg rest ih =>
    intro i m
    show negLoop _ services rest (i + 1) _ = negLoop _ services rest (i + 1) _
    rw [negStep_normalize]
    exact ih (i + 1) _

theorem layoutPositions_normalize (nodes : List GNode) (links : List GLink) :
    layoutPositions ⟨nodes, links.map normalizeLink⟩ = layoutPositions ⟨nodes, links⟩ := by
  unfold layoutPositions layoutServices layoutNegotiations posAfterPerson
  exact negLoop_normalize links _ _ 0 _

theorem keptLinks_normalize (nodes : List GNode) (links : List GLink) :
    keptLinks ⟨nodes, links.map normalizeLink⟩ =
      (keptLinks ⟨nodes, links⟩).map normalizeLink := by
  unfold keptLinks
  rw [layoutPositions_normalize, List.filter_map]
  rw [show ((fun l =>
      (List.lookup (sourceId l) (layoutPositions ⟨nodes, links⟩)).isSome &&
      (List.lookup (targetId l) (layoutPositions ⟨nodes, links⟩)).isSome) ∘ normalizeLink) =
    (fun l =>
      (List.lookup (sourceId l) (layoutPositions ⟨nodes, links⟩)).isSome &&
      (List.lookup (targetId l) (layoutPositions ⟨nodes, links⟩)).isSome) from
    funext fun l => rfl]

theorem computeLayout_normalize (nodes : List GNode) (links : List GLink) :
    computeLayout ⟨nodes, links.map normalizeLink⟩ = computeLayout ⟨nodes, links⟩ := by
  cases nodes with
  | nil => rfl
  | cons n rest =>
    show Layout.mk (layoutPositioned ⟨n :: rest, links.map normalizeLink⟩)
        (layoutEdges ⟨n :: rest, links.map normalizeLink⟩) =
      Layout.mk (layoutPositioned ⟨n :: rest, links⟩) (layoutEdges ⟨n :: rest, links⟩)
    congr 1
    · unfold layoutPositioned
      rw [layoutPositions_normalize]
    · unfold layoutEdges
      rw [keptLinks_normalize, layoutPositions_normalize, List.map_map]
      rw [show renderEdge (layoutPositions ⟨n :: rest, links⟩) ∘ normalizeLink =
        renderEdge (layoutPositions ⟨n :: rest, links⟩) from funext fun l => rfl]

theorem keptLinks_nil_nodes (links : List GLink) : keptLinks ⟨[], links⟩ = [] := by
  unfold keptLinks
  have hpos : layoutPositions ⟨[], links⟩ = [] := rfl
  rw [hpos]
  rw [List.filter_eq_nil_iff]
  intro l hl
  simp [List.lookup]

/-- A snapshot with two links carrying the same normalized endpoints and the
same type, one endpoint given in embedded-object form. -/
def dupLinkGraph : GraphData :=
  ⟨[⟨"p1", "Person", "You", .obj []⟩, ⟨"s1", "Service", "Comcast", .obj []⟩],
   [⟨.bare "p1", .bare "s1", some "SUBSCRIBES_TO", .obj []⟩,
    ⟨.embedded "p1", .bare "s1", some "SUBSCRIBES_TO", .obj []⟩]⟩

/-- **C5 counterexample**: two snapshot links with the same normalized
endpoints and type yield *two* identical rendered edges, not a single one —
the layout engine performs no edge deduplication. -/
theorem duplicate_links_not_deduped_cex :
    (computeLayout dupLinkGraph).edges.length = 2 ∧
    (computeLayout dupLinkGraph).edges.map (fun e => (e.x1, e.y1, e.x2, e.y2, e.label)) =
      [(250, 80, 250, 180, some "subscribes to"),
       (250, 80, 250, 180, some "subscribes to")] := ⟨rfl, rfl⟩

/-- **C5 amended**: the rendered edge list is built by normalizing each
link's source/target reference to a bare id — accepting either a bare id or
an embedded node object, with the layout invariant under the normalization —
and dropping links with unpositioned endpoints, but *without* deduplication:
each surviving link yields exactly one rendered edge, so duplicate links
yield duplicate edges. -/
theorem edge_normalization_no_dedup (nodes : List GNode) (links : List GLink) :
    computeLayout ⟨nodes, links.map normalizeLink⟩ = computeLayout ⟨nodes, links⟩ ∧
    (computeLayout ⟨nodes, links⟩).edges.length = (keptLinks ⟨nodes, links⟩).length := by
  refine ⟨computeLayout_normalize nodes links, ?_⟩
  cases nodes with
  | nil =>
    rw [keptLinks_nil_nodes]
    rfl
  | cons n rest =>
    show (layoutEdges ⟨n :: rest, links⟩).length = _
    unfold layoutEdges
    rw [List.length_map]

/-! ## Dangling links (C6) -/

theorem beq_string_eq {a b : String} (h : (a == b) = true) : a = b := by
  simpa using h

theorem dangling_negLinkPred_false (g : GraphData)
    (hnd : (g.nodes.map (fun n => n.id)).Nodup) (l : GLink)
    (hdang : sourceId l ∉ g.nodes.map (fun n => n.id) ∨
             targetId l ∉ g.nodes.map (fun n => n.id))
    (neg : GNode) (hneg : neg ∈ layoutNegotiations g) :
    negLinkPred (layoutServices g) neg l = false := by
  obtain ⟨hnegm, hnegl⟩ := List.mem_filter.mp hneg
  have hnegid : neg.id ∈ g.nodes.map (fun n => n.id) :=
    List.mem_map.mpr ⟨neg, hnegm, rfl⟩
  cases ht : negLinkPred (layoutServices g) neg l with
  | false => rfl
  | true =>
    exfalso
    unfold negLinkPred at ht
    rw [Bool.and_eq_true] at ht
    obtain ⟨htouch, hany⟩ := ht
    obtain ⟨s, hsmem, hs⟩ := List.any_eq_true.mp hany
    obtain ⟨hsm, hsl⟩ := List.mem_filter.mp hsmem
    have hsid : s.id ∈ g.nodes.map (fun n => n.id) := List.mem_map.mpr ⟨s, hsm, rfl⟩
    rw [Bool.or_eq_true] at htouch hs
    have hclash : s = neg → False := by
      intro hsn
      rw [hsn] at hsl
      have e1 : neg.label = "Service" := beq_string_eq hsl
      have e2 : neg.label = "Negotiation" := beq_string_eq hnegl
      rw [e1] at e2
      exact absurd e2 (by decide)
    rcases hdang with hd | hd
    · have hts : targetId l = neg.id := by
        rcases htouch with h1 | h1
        · have h1e : sourceId l = neg.id := beq_string_eq h1
          rw [h1e] at hd
          exact absurd hnegid hd
        · exact beq_string_eq h1
      rcases hs with h2 | h2
      · have h2e : s.id = sourceId l := beq_string_eq h2
        rw [← h2e] at hd
        exact hd hsid
      · have h2e : s.id = targetId l := beq_string_eq h2
        exact hclash (nodes_id_inj hnd hsm hnegm (h2e.trans hts))
    · have hts : sourceId l = neg.id := by
        rcases htouch with h1 | h1
        · exact beq_string_eq h1
        · have h1e : targetId l = neg.id := beq_string_eq h1
          rw [h1e] at hd
          exact absurd hnegid hd
      rcases hs with h2 | h2
      · have h2e : s.id = sourceId l := beq_string_eq h2
        exact hclash (nodes_id_inj hnd hsm hnegm (h2e.trans hts))
      · have h2e : s.id = targetId l := beq_string_eq h2
        rw [← h2e] at hd
        exact hd hsid

theorem negPlace_append_of_pred_false {services : List GNode} {neg : GNode}
    {l : GLink} (hpl : negLinkPred services neg l = false)
    (links : List GLink) (m : PosMap) (i : Nat) :
    negPlace (links ++ [l]) services m i neg = negPlace links services m i neg := by
  unfold negPlace
  rw [List.find?_append]
  have h1 : List.find? (negLinkPred services neg) [l] = none := by
    simp [List.find?, hpl]
  rw [h1, Option.or_none]

theorem negStep_append_of_pred_false {services : List GNode} {neg : GNode}
    {l : GLink} (hpl : negLinkPred services neg l = false)
    (links : List GLink) (m : PosMap) (i : Nat) :
    negStep (links ++ [l]) services m i neg = negStep links services m i neg := by
  unfold negStep
  rw [negPlace_append_of_pred_false hpl]

theorem negLoop_append_of_pred_false (links : List GLink) (services : List GNode)
    (l : GLink) :
    ∀ (negs : List GNode), (∀ neg ∈ negs, negLinkPred services neg l = false) →
      ∀ (i : Nat) (m : PosMap),
        negLoop (links ++ [l]) services negs i m = negLoop links services negs i m := by
  intro negs
  induction negs with
  | nil => intro _ i m; rfl
  | cons neg rest ih =>
    intro hall i m
    show negLoop (links ++ [l]) services rest (i + 1) _ =
      negLoop links services rest (i + 1) _
    rw [negStep_append_of_pred_false (hall neg (List.mem_cons_self neg rest))]
    exact ih (fun x hx => hall x (List.mem_cons_of_mem neg hx)) (i + 1) _

theorem layoutPositions_append_dangling (g : GraphData)
    (hnd : (g.nodes.map (fun n => n.id)).Nodup) (l : GLink)
    (hdang : sourceId l ∉ g.nodes.map (fun n => n.id) ∨
             targetId l ∉ g.nodes.map (fun n => n.id)) :
    layoutPositions ⟨g.nodes, g.links ++ [l]⟩ = layoutPositions g := by
  unfold layoutPositions
  exact negLoop_append_of_pred_false g.links _ l _
    (fun neg hneg => dangling_negLinkPred_false g hnd l hdang neg hneg) 0 _

theorem lookup_not_node (g : GraphData) {k : String}
    (hk : k ∉ g.nodes.map (fun n => n.id)) :
    ((layoutPositions g).lookup k).isSome = false := by
  cases hs : ((layoutPositions g).lookup k).isSome with
  | false => rfl
  | true =>
    exfalso
    obtain ⟨v, hv⟩ := lookup_isSome_exists_mem hs
    rcases layoutPositions_mem g _ hv with ⟨p, hp, hid⟩ | ⟨s, hsm, hid⟩ | ⟨t, htm, hid⟩
    · apply hk
      have hid2 : k = p.id := hid
      rw [hid2]
      exact List.mem_map.mpr ⟨p, List.mem_of_find?_eq_some hp, rfl⟩
    · apply hk
      have hid2 : k = s.id := hid
      rw [hid2]
      exact List.mem_map.mpr ⟨s, (List.mem_filter.mp hsm).1, rfl⟩
    · apply hk
      have hid2 : k = t.id := hid
      rw [hid2]
      exact List.mem_map.mpr ⟨t, (List.mem_filter.mp htm).1, rfl⟩

theorem keptLinks_append_dangling (g : GraphData)
    (hnd : (g.nodes.map (fun n => n.id)).Nodup) (l : GLink)
    (hdang : sourceId l ∉ g.nodes.map (fun n => n.id) ∨
             targetId l ∉ g.nodes.map (fun n => n.id)) :
    keptLinks ⟨g.nodes, g.links ++ [l]⟩ = keptLinks g := by
  unfold keptLinks
  rw [layoutPositions_append_dangling g hnd l hdang, List.filter_append]
  have hl : List.filter (fun x =>
      ((layoutPositions g).lookup (sourceId x)).isSome &&
      ((layoutPositions g).lookup (targetId x)).isSome) [l] = [] := by
    rw [List.filter_eq_nil_iff]
    intro x hx
    rw [List.mem_singleton] at hx
    subst hx
    rcases hdang with hd | hd
    · simp [lookup_not_node g hd]
    · simp [lookup_not_node g hd]
  rw [hl, List.append_nil]

theorem computeLayout_append_dangling (g : GraphData)
    (hnd : (g.nodes.map (fun n => n.id)).Nodup) (l : GLink)
    (hdang : sourceId l ∉ g.nodes.map (fun n => n.id) ∨
             targetId l ∉ g.nodes.map (fun n => n.id)) :
    computeLayout ⟨g.nodes, g.links ++ [l]⟩ = computeLayout g := by
  unfold computeLayout
  by_cases hemp : g.nodes.isEmpty
  · rw [if_pos hemp, if_pos hemp]
  · rw [if_neg hemp, if_neg hemp]
    congr 1
    · unfold layoutPositioned
      rw [layoutPositions_append_dangling g hnd l hdang]
    · unfold layoutEdges
      rw [keptLinks_append_dangling g hnd l hdang,
        layoutPositions_append_dangling g hnd l hdang]

theorem person_alone (p : GNode) (links : List GLink) (hp : p.label = "Person") :
    (computeLayout ⟨[p], links⟩).positioned = [⟨p, 250, 80, activeFlag p⟩] := by
  have hsvc : layoutServices ⟨[p], links⟩ = [] := by
    simp [layoutServices, List.filter, hp]
  have hneg : layoutNegotiations ⟨[p], links⟩ = [] := by
    simp [layoutNegotiations, List.filter, hp]
  have hper : List.find? (fun x => x.label == "Person") [p] = some p := by
    simp [List.find?, hp]
  have hpos : layoutPositions ⟨[p], links⟩ = [(p.id, (250, 80))] := by
    unfold layoutPositions posAfterPerson
    rw [hsvc, hneg]
    show negLoop links [] [] 0 (svcLoop _ [] 0 _) = _
    rw [hper]
    rfl
  show layoutPositioned ⟨[p], links⟩ = _
  unfold layoutPositioned
  rw [hpos]
  simp [List.filterMap, lookup_cons_self]

/-- **C6**: an empty node set yields the empty layout rather than an error;
appending a link whose normalized source or target id names no node leaves
the layout — every positioned node and every rendered edge — unchanged, the
dangling link being dropped; and a snapshot whose only node is the subject
(Person) node still places it alone at the anchor. -/
theorem layout_edge_cases :
    (∀ links : List GLink, computeLayout ⟨[], links⟩ = ⟨[], []⟩) ∧
    (∀ (g : GraphData) (l : GLink), (g.nodes.map (fun n => n.id)).Nodup →
      (sourceId l ∉ g.nodes.map (fun n => n.id) ∨
       targetId l ∉ g.nodes.map (fun n => n.id)) →
      computeLayout ⟨g.nodes, g.links ++ [l]⟩ = computeLayout g) ∧
    (∀ (p : GNode) (links : List GLink), p.label = "Person" →
      (computeLayout ⟨[p], links⟩).positioned = [⟨p, 250, 80, activeFlag p⟩]) :=
  ⟨fun _ => rfl, fun g l hnd hdang => computeLayout_append_dangling g hnd l hdang,
   person_alone⟩

/-- A Person-plus-Service snapshot with one proper link. -/
def twoNodeGraph : GraphData :=
  ⟨[⟨"p1", "Person", "You", .obj []⟩, ⟨"s1", "Service", "Comcast", .obj []⟩],
   [⟨.bare "p1", .bare "s1", some "SUBSCRIBES_TO", .obj []⟩]⟩

/-- A link whose target id names no node of `twoNodeGraph`. -/
def wDanglingLink : GLink := ⟨.bare "s1", .bare "ghost", some "X", .obj []⟩

theorem layout_edge_cases_witness :
    computeLayout ⟨[], [wDanglingLink]⟩ = ⟨[], []⟩ ∧
    computeLayout ⟨twoNodeGraph.nodes, twoNodeGraph.links ++ [wDanglingLink]⟩ =
      computeLayout twoNodeGraph ∧
    (computeLayout ⟨[⟨"p1", "Person", "You", .obj []⟩], []⟩).positioned =
      [⟨⟨"p1", "Person", "You", .obj []⟩, 250, 80,
        activeFlag ⟨"p1", "Person", "You", .obj []⟩⟩] :=
  ⟨layout_edge_cases.1 [wDanglingLink],
   layout_edge_cases.2.1 twoNodeGraph wDanglingLink (by decide) (Or.inr (by decide)),
   layout_edge_cases.2.2 ⟨"p1", "Person", "You", .obj []⟩ [] rfl⟩

end Haggle
